import Mathlib

/-!
Shallow embedding of the in-memory task/project tracker implemented by
`src/main.py` (class `ToDoApp`, dataclasses `Task` and `Project`,
validation helper `ValidationError.is_blank`).

Python strings are modelled as Lean `String`; `str.strip()`, `str.lower()`
and `len` are modelled over the character list so that the kernel can
evaluate them on concrete inputs.  Every tracker operation mutates state in
place in Python and signals failure by raising `ValidationError`; here each
operation returns the result (`Except`) together with the post-call state,
so a partially mutated state on failure is representable exactly as in the
source.
-/

namespace Todo

/-- Decidable equality of call results, so witnesses can be checked by
evaluation. -/
instance exceptDecEq {ε α : Type} [DecidableEq ε] [DecidableEq α] :
    DecidableEq (Except ε α) := fun a b =>
  match a, b with
  | Except.ok x, Except.ok y =>
    if h : x = y then Decidable.isTrue (by rw [h]) else Decidable.isFalse (by simp [h])
  | Except.error x, Except.error y =>
    if h : x = y then Decidable.isTrue (by rw [h]) else Decidable.isFalse (by simp [h])
  | Except.ok _, Except.error _ => Decidable.isFalse (by simp)
  | Except.error _, Except.ok _ => Decidable.isFalse (by simp)

/-- ASCII whitespace as recognised by Python `str.strip()` on the inputs
this CLI handles (space, tab, newline, carriage return, vertical tab,
form feed). -/
def pyIsSpace (c : Char) : Bool :=
  c = ' ' || c = '\t' || c = '\n' || c = '\r' || c = '\x0b' || c = '\x0c'

/-- Python `s.strip()`: drop whitespace from both ends. -/
def pyStrip (s : String) : String :=
  String.mk (((s.data.dropWhile pyIsSpace).reverse.dropWhile pyIsSpace).reverse)

/-- Python `s.lower()` (per-character lowering). -/
def pyLower (s : String) : String :=
  String.mk (s.data.map Char.toLower)

/-- Python `len(s)` (number of characters). -/
def pyLen (s : String) : Nat :=
  s.data.length

/-- `ValidationError.is_blank`: `not value or not value.strip()`. -/
def is_blank (value : String) : Bool :=
  value == "" || pyStrip value == ""

/-- `ValidationError.NAME_MIN_LEN`. -/
def NAME_MIN_LEN : Nat := 1

/-- `ValidationError.NAME_MAX_LEN`. -/
def NAME_MAX_LEN : Nat := 50

/-- `ValidationError.DESC_MAX_LEN`. -/
def DESC_MAX_LEN : Nat := 200

/-- The `Task` dataclass of `src/main.py`.  `status` is one of the literal
strings todo / doing / done at runtime, so it is modelled as a `String`. -/
structure Task where
  id : Nat
  title : String
  description : String
  status : String
deriving DecidableEq

/-- The `Project` dataclass of `src/main.py`. -/
structure Project where
  id : Nat
  name : String
  description : String
  tasks : List Task
deriving DecidableEq

/-- The state held by class `ToDoApp`: projects list, configured limits and
the two monotonic id counters (`_next_project_id`, `_next_task_id`). -/
structure ToDoApp where
  projects : List Project
  maxProjects : Nat
  maxTasks : Nat
  nextProjectId : Nat
  nextTaskId : Nat
deriving DecidableEq

/-- `ToDoApp.__init__`: empty project list, both counters start at 1. -/
def initApp (max_projects max_tasks : Nat) : ToDoApp :=
  ⟨[], max_projects, max_tasks, 1, 1⟩

/-- `ToDoApp._find_project`: first project with the given id, if any. -/
def find_project (app : ToDoApp) (project_id : Nat) : Option Project :=
  app.projects.find? (fun p => p.id == project_id)

/-- `ToDoApp._find_task`: first task of the project with the given id. -/
def find_task (project : Project) (task_id : Nat) : Option Task :=
  project.tasks.find? (fun t => t.id == task_id)

/-- In-place mutation of the project object returned by `_find_project`:
replace the first project whose id matches. -/
def replace_project : List Project → Nat → Project → List Project
  | [], _, _ => []
  | q :: rest, project_id, p =>
    if q.id == project_id then p :: rest else q :: replace_project rest project_id p

/-- In-place mutation of the task object returned by `_find_task`:
replace the first task whose id matches. -/
def replace_task : List Task → Nat → Task → List Task
  | [], _, _ => []
  | u :: rest, task_id, t =>
    if u.id == task_id then t :: rest else u :: replace_task rest task_id t

/-- Python `list.remove` on the projects list: drop the first element equal
to the given project. -/
def remove_project : List Project → Project → List Project
  | [], _ => []
  | q :: rest, p => if q = p then rest else q :: remove_project rest p

/-- Python `list.remove` on a task list: drop the first element equal to the
given task. -/
def remove_task : List Task → Task → List Task
  | [], _ => []
  | u :: rest, t => if u = t then rest else u :: remove_task rest t

/-- The status check `new_status in ["todo", "doing", "done"]`. -/
def valid_status (s : String) : Bool :=
  s == "todo" || s == "doing" || s == "done"

/-- `ToDoApp.create_project`.  Note that the length check is on the raw
(unstripped) `name` and that no description-length check is present. -/
def create_project (app : ToDoApp) (name description : String) :
    Except String Project × ToDoApp :=
  if app.projects.length ≥ app.maxProjects then
    (Except.error "Project limit reached.", app)
  else if is_blank name then
    (Except.error "Project name is required.", app)
  else if ¬ (NAME_MIN_LEN ≤ pyLen name ∧ pyLen name ≤ NAME_MAX_LEN) then
    (Except.error "Invalid project name length.", app)
  else if app.projects.any (fun p => pyLower (pyStrip p.name) == pyLower (pyStrip name)) then
    (Except.error "Project name must be unique.", app)
  else
    let project : Project := ⟨app.nextProjectId, pyStrip name, pyStrip description, []⟩
    (Except.ok project,
      { app with
          projects := app.projects ++ [project],
          nextProjectId := app.nextProjectId + 1 })

/-- `ToDoApp.edit_project`.  Only existence and non-blankness are checked;
there is no length or duplicate-name check. -/
def edit_project (app : ToDoApp) (project_id : Nat) (new_name new_description : String) :
    Except String Project × ToDoApp :=
  match find_project app project_id with
  | none => (Except.error "Project not found.", app)
  | some project =>
    if is_blank new_name then
      (Except.error "Project name cannot be empty.", app)
    else
      let p : Project :=
        { project with name := pyStrip new_name, description := pyStrip new_description }
      (Except.ok p, { app with projects := replace_project app.projects project_id p })

/-- `ToDoApp.delete_project`. -/
def delete_project (app : ToDoApp) (project_id : Nat) :
    Except String Unit × ToDoApp :=
  match find_project app project_id with
  | none => (Except.error "Project not found.", app)
  | some project =>
    (Except.ok (), { app with projects := remove_project app.projects project })

/-- Stable insertion (after equal keys) used to model Python's stable
`sorted(..., key=lambda p: p.id)` on projects. -/
def insert_proj_by_id (p : Project) : List Project → List Project
  | [] => [p]
  | q :: rest => if p.id < q.id then p :: q :: rest else q :: insert_proj_by_id p rest

/-- Stable sort of projects by ascending id. -/
def sort_projects_by_id : List Project → List Project
  | [] => []
  | p :: rest => insert_proj_by_id p (sort_projects_by_id rest)

/-- `ToDoApp.list_projects`. -/
def list_projects (app : ToDoApp) : List Project :=
  sort_projects_by_id app.projects

/-- `ToDoApp.add_task`. -/
def add_task (app : ToDoApp) (project_id : Nat) (title description : String) :
    Except String Task × ToDoApp :=
  match find_project app project_id with
  | none => (Except.error "Project not found.", app)
  | some project =>
    if project.tasks.length ≥ app.maxTasks then
      (Except.error "Task limit reached for this project.", app)
    else if is_blank title then
      (Except.error "Task title is required.", app)
    else
      let task : Task := ⟨app.nextTaskId, pyStrip title, pyStrip description, "todo"⟩
      let p : Project := { project with tasks := project.tasks ++ [task] }
      (Except.ok task,
        { app with
            projects := replace_project app.projects project_id p,
            nextTaskId := app.nextTaskId + 1 })

/-- `ToDoApp.edit_task`.  `new_status : Option String` models the Python
argument (`some s` a string, `none` the value `None`).  Faithful to the
source order: the task's title and description are overwritten BEFORE the
status value is validated, so on an invalid status the error is raised from
a state in which title and description have already changed.  There is no
blank-title check. -/
def edit_task (app : ToDoApp) (project_id task_id : Nat)
    (new_title new_description : String) (new_status : Option String) :
    Except String Task × ToDoApp :=
  match find_project app project_id with
  | none => (Except.error "Project not found.", app)
  | some project =>
    match find_task project task_id with
    | none => (Except.error "Task not found.", app)
    | some task =>
      let t1 : Task :=
        { task with title := pyStrip new_title, description := pyStrip new_description }
      match new_status with
      | some s =>
        if valid_status s then
          let t2 : Task := { t1 with status := s }
          let p2 : Project := { project with tasks := replace_task project.tasks task_id t2 }
          (Except.ok t2, { app with projects := replace_project app.projects project_id p2 })
        else
          let p1 : Project := { project with tasks := replace_task project.tasks task_id t1 }
          (Except.error "Invalid status value.",
            { app with projects := replace_project app.projects project_id p1 })
      | none =>
        let p1 : Project := { project with tasks := replace_task project.tasks task_id t1 }
        (Except.error "Invalid status value.",
          { app with projects := replace_project app.projects project_id p1 })

/-- `ToDoApp.delete_task`. -/
def delete_task (app : ToDoApp) (project_id task_id : Nat) :
    Except String Unit × ToDoApp :=
  match find_project app project_id with
  | none => (Except.error "Project not found.", app)
  | some project =>
    match find_task project task_id with
    | none => (Except.error "Task not found.", app)
    | some task =>
      let p : Project := { project with tasks := remove_task project.tasks task }
      (Except.ok (),
        { app with projects := replace_project app.projects project_id p })

/-- `ToDoApp.change_status`.  The status value is validated before the
project and task lookups, matching the source order. -/
def change_status (app : ToDoApp) (project_id task_id : Nat) (new_status : String) :
    Except String Task × ToDoApp :=
  if ¬ valid_status new_status then
    (Except.error "Invalid status.", app)
  else
    match find_project app project_id with
    | none => (Except.error "Project not found.", app)
    | some project =>
      match find_task project task_id with
      | none => (Except.error "Task not found.", app)
      | some task =>
        let t : Task := { task with status := new_status }
        let p : Project := { project with tasks := replace_task project.tasks task_id t }
        (Except.ok t,
          { app with projects := replace_project app.projects project_id p })

/-- Stable insertion (after equal keys) used to model Python's stable
`sorted(..., key=lambda t: t.id)` on tasks. -/
def insert_task_by_id (t : Task) : List Task → List Task
  | [] => [t]
  | u :: rest => if t.id < u.id then t :: u :: rest else u :: insert_task_by_id t rest

/-- Stable sort of tasks by ascending id. -/
def sort_tasks_by_id : List Task → List Task
  | [] => []
  | t :: rest => insert_task_by_id t (sort_tasks_by_id rest)

/-- `ToDoApp.list_tasks` (read-only: returns no state). -/
def list_tasks (app : ToDoApp) (project_id : Nat) : Except String (List Task) :=
  match find_project app project_id with
  | none => Except.error "Project not found."
  | some project => Except.ok (sort_tasks_by_id project.tasks)

/-- One call made against the tracker, with its arguments. -/
inductive Op where
  | createProject (name description : String)
  | editProject (project_id : Nat) (new_name new_description : String)
  | deleteProject (project_id : Nat)
  | addTask (project_id : Nat) (title description : String)
  | editTask (project_id task_id : Nat) (new_title new_description : String)
      (new_status : Option String)
  | deleteTask (project_id task_id : Nat)
  | changeStatus (project_id task_id : Nat) (new_status : String)

/-- The state after one call (whether it succeeded or raised). -/
def applyOp (app : ToDoApp) : Op → ToDoApp
  | Op.createProject n d => (create_project app n d).2
  | Op.editProject i n d => (edit_project app i n d).2
  | Op.deleteProject i => (delete_project app i).2
  | Op.addTask i t d => (add_task app i t d).2
  | Op.editTask i j t d s => (edit_task app i j t d s).2
  | Op.deleteTask i j => (delete_task app i j).2
  | Op.changeStatus i j s => (change_status app i j s).2

/-- The state after a sequence of calls. -/
def runOps : ToDoApp → List Op → ToDoApp
  | app, [] => app
  | app, op :: rest => runOps (applyOp app op) rest

/-- A tracker state is reachable when some sequence of calls starting from a
freshly constructed `ToDoApp` produces it. -/
def Reachable (app : ToDoApp) : Prop :=
  ∃ max_projects max_tasks ops, runOps (initApp max_projects max_tasks) ops = app

/-- All tasks stored anywhere in the tracker, in project order. -/
def allTasks (app : ToDoApp) : List Task :=
  (app.projects.map Project.tasks).flatten

/-- All tasks of a list of projects, in order. -/
def tasksOf (l : List Project) : List Task :=
  (l.map Project.tasks).flatten

/-- Internal consistency of a tracker state: live ids are below the
counters, project ids and task ids are duplicate-free (task ids globally
across the whole tracker), and the configured capacities are respected. -/
structure Inv (app : ToDoApp) : Prop where
  proj_lt : ∀ p ∈ app.projects, p.id < app.nextProjectId
  proj_nodup : (app.projects.map Project.id).Nodup
  task_lt : ∀ t ∈ allTasks app, t.id < app.nextTaskId
  task_nodup : ((allTasks app).map Task.id).Nodup
  proj_count : app.projects.length ≤ app.maxProjects
  task_count : ∀ p ∈ app.projects, p.tasks.length ≤ app.maxTasks

/-- Project ids handed out by one call (empty unless a `create_project`
succeeds). -/
def op_alloc_pid (app : ToDoApp) : Op → List Nat
  | Op.createProject n d =>
    match (create_project app n d).1 with
    | Except.ok p => [p.id]
    | Except.error _ => []
  | _ => []

/-- Task ids handed out by one call (empty unless an `add_task` succeeds). -/
def op_alloc_tid (app : ToDoApp) : Op → List Nat
  | Op.addTask i t d =>
    match (add_task app i t d).1 with
    | Except.ok tk => [tk.id]
    | Except.error _ => []
  | _ => []

/-- All project ids returned by successful `create_project` calls of a run,
in call order. -/
def allocated_project_ids : ToDoApp → List Op → List Nat
  | _, [] => []
  | app, op :: rest => op_alloc_pid app op ++ allocated_project_ids (applyOp app op) rest

/-- All task ids returned by successful `add_task` calls of a run, in call
order. -/
def allocated_task_ids : ToDoApp → List Op → List Nat
  | _, [] => []
  | app, op :: rest => op_alloc_tid app op ++ allocated_task_ids (applyOp app op) rest

/-- Example input: a 201-character description. -/
def bigDesc : String := String.mk (List.replicate 201 'x')

/-- Example input: a name of raw length 51 whose trimmed length is 49. -/
def padName : String := "  " ++ String.mk (List.replicate 49 'y')

/-- Call sequence producing one project (id 1) holding one task (id 1). -/
def appA_ops : List Op := [Op.createProject "A" "", Op.addTask 1 "t" "d"]

/-- One project "A" (id 1) with one task "t" (id 1), limits 10 and 100. -/
def appA : ToDoApp := runOps (initApp 10 100) appA_ops

/-- Call sequence producing two projects "A" and "B". -/
def appAB0_ops : List Op := [Op.createProject "A" "", Op.createProject "B" ""]

/-- Two projects "A" (id 1) and "B" (id 2). -/
def appAB0 : ToDoApp := runOps (initApp 10 100) appAB0_ops

/-- Two projects after renaming the second to a case variant of the first. -/
def appAB : ToDoApp := runOps (initApp 10 100) (appAB0_ops ++ [Op.editProject 2 "a" ""])

/-- A tracker configured with max_tasks = 0 holding one project. -/
def appT : ToDoApp := runOps (initApp 10 0) [Op.createProject "A" ""]


/-! ### Helper lemmas about lookup, replacement and removal -/

lemma allTasks_eq (app : ToDoApp) : allTasks app = tasksOf app.projects := rfl

lemma tasksOf_append (l₁ l₂ : List Project) :
    tasksOf (l₁ ++ l₂) = tasksOf l₁ ++ tasksOf l₂ := by
  simp [tasksOf]

lemma tasksOf_cons (p : Project) (l : List Project) :
    tasksOf (p :: l) = p.tasks ++ tasksOf l := by
  simp [tasksOf]

lemma mem_tasksOf {t : Task} {l : List Project} :
    t ∈ tasksOf l ↔ ∃ p ∈ l, t ∈ p.tasks := by
  simp [tasksOf, List.mem_flatten]

lemma find_project_id {app : ToDoApp} {i : Nat} {p : Project}
    (h : find_project app i = some p) : p.id = i := by
  have := List.find?_some h
  simpa using this

lemma find_project_mem {app : ToDoApp} {i : Nat} {p : Project}
    (h : find_project app i = some p) : p ∈ app.projects :=
  List.mem_of_find?_eq_some h

lemma find_task_id {project : Project} {j : Nat} {t : Task}
    (h : find_task project j = some t) : t.id = j := by
  have := List.find?_some h
  simpa using this

lemma find_task_mem {project : Project} {j : Nat} {t : Task}
    (h : find_task project j = some t) : t ∈ project.tasks :=
  List.mem_of_find?_eq_some h

/-- Decompose a successful project lookup together with the effect of
replacing the found project. -/
lemma find_replace_project_decomp {l : List Project} {i : Nat} {q : Project}
    (h : l.find? (fun r => r.id == i) = some q) (p : Project) :
    ∃ l₁ l₂, l = l₁ ++ q :: l₂ ∧ (∀ r ∈ l₁, r.id ≠ i) ∧
      replace_project l i p = l₁ ++ p :: l₂ := by
  induction l with
  | nil => simp [List.find?] at h
  | cons r rest ih =>
    by_cases hr : (r.id == i) = true
    · simp only [List.find?, hr] at h
      cases h
      refine ⟨[], rest, rfl, by simp, ?_⟩
      simp [replace_project, hr]
    · have hr2 : (r.id == i) = false := by simpa using hr
      simp only [List.find?, hr2] at h
      obtain ⟨l₁, l₂, hl, hnone, hrep⟩ := ih h
      refine ⟨r :: l₁, l₂, by simp [hl], ?_, ?_⟩
      · intro x hx
        rcases List.mem_cons.mp hx with hx | hx
        · subst hx; simpa using hr
        · exact hnone x hx
      · simp only [replace_project, hr2]
        simp [hrep]

/-- Decompose a successful task lookup together with the effect of
replacing the found task. -/
lemma find_replace_task_decomp {l : List Task} {j : Nat} {u : Task}
    (h : l.find? (fun r => r.id == j) = some u) (t : Task) :
    ∃ l₁ l₂, l = l₁ ++ u :: l₂ ∧ (∀ r ∈ l₁, r.id ≠ j) ∧
      replace_task l j t = l₁ ++ t :: l₂ := by
  induction l with
  | nil => simp [List.find?] at h
  | cons r rest ih =>
    by_cases hr : (r.id == j) = true
    · simp only [List.find?, hr] at h
      cases h
      refine ⟨[], rest, rfl, by simp, ?_⟩
      simp [replace_task, hr]
    · have hr2 : (r.id == j) = false := by simpa using hr
      simp only [List.find?, hr2] at h
      obtain ⟨l₁, l₂, hl, hnone, hrep⟩ := ih h
      refine ⟨r :: l₁, l₂, by simp [hl], ?_, ?_⟩
      · intro x hx
        rcases List.mem_cons.mp hx with hx | hx
        · subst hx; simpa using hr
        · exact hnone x hx
      · simp only [replace_task, hr2]
        simp [hrep]

/-- Decompose a successful project lookup together with the effect of
`list.remove` on the found project. -/
lemma find_remove_project_decomp {l : List Project} {i : Nat} {q : Project}
    (h : l.find? (fun r => r.id == i) = some q) :
    ∃ l₁ l₂, l = l₁ ++ q :: l₂ ∧ (∀ r ∈ l₁, r.id ≠ i) ∧
      remove_project l q = l₁ ++ l₂ := by
  have hqid : q.id = i := by simpa using List.find?_some h
  induction l with
  | nil => simp [List.find?] at h
  | cons r rest ih =>
    by_cases hr : (r.id == i) = true
    · simp only [List.find?, hr] at h
      cases h
      refine ⟨[], rest, rfl, by simp, ?_⟩
      simp [remove_project]
    · have hr2 : (r.id == i) = false := by simpa using hr
      simp only [List.find?, hr2] at h
      obtain ⟨l₁, l₂, hl, hnone, hrem⟩ := ih h
      have hrq : r ≠ q := by
        intro he
        apply hr
        rw [he, hqid]
        simp
      refine ⟨r :: l₁, l₂, by simp [hl], ?_, ?_⟩
      · intro x hx
        rcases List.mem_cons.mp hx with hx | hx
        · subst hx; simpa using hr
        · exact hnone x hx
      · simp only [remove_project, if_neg hrq]
        simp [hrem]

/-- Decompose a successful task lookup together with the effect of
`list.remove` on the found task. -/
lemma find_remove_task_decomp {l : List Task} {j : Nat} {u : Task}
    (h : l.find? (fun r => r.id == j) = some u) :
    ∃ l₁ l₂, l = l₁ ++ u :: l₂ ∧ (∀ r ∈ l₁, r.id ≠ j) ∧
      remove_task l u = l₁ ++ l₂ := by
  have huid : u.id = j := by simpa using List.find?_some h
  induction l with
  | nil => simp [List.find?] at h
  | cons r rest ih =>
    by_cases hr : (r.id == j) = true
    · simp only [List.find?, hr] at h
      cases h
      refine ⟨[], rest, rfl, by simp, ?_⟩
      simp [remove_task]
    · have hr2 : (r.id == j) = false := by simpa using hr
      simp only [List.find?, hr2] at h
      obtain ⟨l₁, l₂, hl, hnone, hrem⟩ := ih h
      have hru : r ≠ u := by
        intro he
        apply hr
        rw [he, huid]
        simp
      refine ⟨r :: l₁, l₂, by simp [hl], ?_, ?_⟩
      · intro x hx
        rcases List.mem_cons.mp hx with hx | hx
        · subst hx; simpa using hr
        · exact hnone x hx
      · simp only [remove_task, if_neg hru]
        simp [hrem]

/-- A lookup succeeds on a decomposed list whose head part has no match. -/
lemma find_project_of_decomp {l₁ l₂ : List Project} {i : Nat} {p : Project}
    (hnone : ∀ r ∈ l₁, r.id ≠ i) (hp : p.id = i) :
    (l₁ ++ p :: l₂).find? (fun r => r.id == i) = some p := by
  induction l₁ with
  | nil => simp [List.find?_cons_of_pos, hp]
  | cons r rest ih =>
    have hr : (r.id == i) = false := by
      simpa using hnone r (List.mem_cons_self r rest)
    rw [List.cons_append, List.find?_cons_of_neg _ (by simp [hr])]
    exact ih (fun x hx => hnone x (List.mem_cons_of_mem r hx))

/-- A lookup fails when no element of the list has the id. -/
lemma find_project_eq_none {l : List Project} {i : Nat}
    (h : ∀ r ∈ l, r.id ≠ i) : l.find? (fun r => r.id == i) = none := by
  rw [List.find?_eq_none]
  intro x hx
  simpa using h x hx

lemma is_blank_strip {v : String} (h : is_blank v = true) : pyStrip v = "" := by
  have h2 : v = "" ∨ pyStrip v = "" := by simpa [is_blank] using h
  rcases h2 with h1 | h1
  · subst h1
    rfl
  · exact h1

/-! ### The state invariant and its preservation -/

lemma inv_init (mp mt : Nat) : Inv (initApp mp mt) := by
  constructor <;> simp [initApp, allTasks]

/-- Master lemma: replacing the project found by `_find_project` with a
project of the same id whose task-id list is a sublist of the original (and
no more tasks than before) preserves the invariant. -/
lemma inv_replace_project {app : ToDoApp} (h : Inv app) {i : Nat} {project : Project}
    (hf : find_project app i = some project) (p : Project)
    (hid : p.id = project.id)
    (hsub : List.Sublist (p.tasks.map Task.id) (project.tasks.map Task.id))
    (hlen : p.tasks.length ≤ project.tasks.length) :
    Inv { app with projects := replace_project app.projects i p } := by
  obtain ⟨l₁, l₂, hl, hnone, hrep⟩ := find_replace_project_decomp hf p
  have hpmem : project ∈ app.projects := find_project_mem hf
  constructor
  · intro q hq
    simp only at hq
    rw [hrep] at hq
    rcases List.mem_append.mp hq with hq | hq
    · exact h.proj_lt q (by rw [hl]; exact List.mem_append_left _ hq)
    · rcases List.mem_cons.mp hq with hq | hq
      · subst hq
        rw [hid]
        exact h.proj_lt project hpmem
      · exact h.proj_lt q
          (by rw [hl]; exact List.mem_append_right _ (List.mem_cons_of_mem _ hq))
  · simp only
    rw [hrep]
    have : (l₁ ++ p :: l₂).map Project.id = (l₁ ++ project :: l₂).map Project.id := by
      simp [hid]
    rw [this, ← hl]
    exact h.proj_nodup
  · intro t ht
    simp only [allTasks_eq] at ht ⊢
    rw [hrep, tasksOf_append, tasksOf_cons] at ht
    have hall : ∀ u, u ∈ tasksOf app.projects → u.id < app.nextTaskId := by
      intro u hu
      exact h.task_lt u (by rw [allTasks_eq]; exact hu)
    rcases List.mem_append.mp ht with ht | ht
    · exact hall t (by rw [hl, tasksOf_append]; exact List.mem_append_left _ ht)
    · rcases List.mem_append.mp ht with ht | ht
      · have : t.id ∈ project.tasks.map Task.id :=
          hsub.mem (List.mem_map_of_mem Task.id ht)
        obtain ⟨u, hu, hui⟩ := List.mem_map.mp this
        rw [← hui]
        exact hall u (by
          rw [hl, tasksOf_append, tasksOf_cons]
          exact List.mem_append_right _ (List.mem_append_left _ hu))
      · exact hall t (by
          rw [hl, tasksOf_append, tasksOf_cons]
          exact List.mem_append_right _ (List.mem_append_right _ ht))
  · simp only [allTasks_eq]
    rw [hrep, tasksOf_append, tasksOf_cons]
    have hold := h.task_nodup
    rw [allTasks_eq, hl, tasksOf_append, tasksOf_cons] at hold
    have hsl : List.Sublist
        ((tasksOf l₁ ++ (p.tasks ++ tasksOf l₂)).map Task.id)
        ((tasksOf l₁ ++ (project.tasks ++ tasksOf l₂)).map Task.id) := by
      simp only [List.map_append]
      exact (List.Sublist.refl ((tasksOf l₁).map Task.id)).append
        (hsub.append (List.Sublist.refl ((tasksOf l₂).map Task.id)))
    exact hold.sublist hsl
  · have hc := h.proj_count
    rw [hl] at hc
    simp only
    rw [hrep]
    simpa using hc
  · intro q hq
    simp only at hq
    rw [hrep] at hq
    rcases List.mem_append.mp hq with hq | hq
    · exact h.task_count q (by rw [hl]; exact List.mem_append_left _ hq)
    · rcases List.mem_cons.mp hq with hq | hq
      · subst hq
        exact le_trans hlen (h.task_count project hpmem)
      · exact h.task_count q
          (by rw [hl]; exact List.mem_append_right _ (List.mem_cons_of_mem _ hq))

lemma inv_create_project {app : ToDoApp} (h : Inv app) (n d : String) :
    Inv (create_project app n d).2 := by
  unfold create_project
  split
  · exact h
  split
  · exact h
  split
  · exact h
  split
  · exact h
  rename_i hlim hblank hlen hdup
  show Inv { app with
      projects := app.projects ++ [⟨app.nextProjectId, pyStrip n, pyStrip d, []⟩],
      nextProjectId := app.nextProjectId + 1 }
  constructor
  · intro p hp
    simp only at hp ⊢
    rcases List.mem_append.mp hp with hp | hp
    · exact Nat.lt_succ_of_lt (h.proj_lt p hp)
    · have : p = ⟨app.nextProjectId, pyStrip n, pyStrip d, []⟩ := by simpa using hp
      subst this
      exact Nat.lt_succ_self _
  · simp only [List.map_append, List.map_cons, List.map_nil]
    rw [List.nodup_append]
    refine ⟨h.proj_nodup, by simp, ?_⟩
    intro x hx
    obtain ⟨p, hp, hpx⟩ := List.mem_map.mp hx
    have := h.proj_lt p hp
    simp only [List.mem_cons, List.not_mem_nil, or_false]
    omega
  · intro t ht
    have hAT : tasksOf (app.projects ++
        [⟨app.nextProjectId, pyStrip n, pyStrip d, []⟩]) = tasksOf app.projects := by
      rw [tasksOf_append]
      simp [tasksOf]
    simp only [allTasks_eq] at ht ⊢
    rw [hAT] at ht
    exact h.task_lt t ht
  · have hAT : tasksOf (app.projects ++
        [⟨app.nextProjectId, pyStrip n, pyStrip d, []⟩]) = tasksOf app.projects := by
      rw [tasksOf_append]
      simp [tasksOf]
    simp only [allTasks_eq]
    rw [hAT]
    exact h.task_nodup
  · simp only [List.length_append, List.length_cons, List.length_nil]
    omega
  · intro p hp
    simp only at hp
    rcases List.mem_append.mp hp with hp | hp
    · exact h.task_count p hp
    · have : p = ⟨app.nextProjectId, pyStrip n, pyStrip d, []⟩ := by simpa using hp
      subst this
      simp

lemma inv_edit_project {app : ToDoApp} (h : Inv app) (i : Nat) (n d : String) :
    Inv (edit_project app i n d).2 := by
  unfold edit_project
  cases hf : find_project app i with
  | none => exact h
  | some project =>
    by_cases hb : is_blank n = true
    · simp only [hb, if_true]
      exact h
    · simp only [hb, if_false, Bool.false_eq_true]
      exact inv_replace_project h hf _ rfl (List.Sublist.refl _) le_rfl

lemma inv_delete_project {app : ToDoApp} (h : Inv app) (i : Nat) :
    Inv (delete_project app i).2 := by
  unfold delete_project
  cases hf : find_project app i with
  | none => exact h
  | some project =>
    obtain ⟨l₁, l₂, hl, hnone, hrem⟩ := find_remove_project_decomp hf
    have hsubp : List.Sublist (l₁ ++ l₂) app.projects := by
      rw [hl]
      exact (List.Sublist.refl l₁).append (List.sublist_cons_self project l₂)
    show Inv { app with projects := remove_project app.projects project }
    constructor
    · intro p hp
      simp only at hp
      rw [hrem] at hp
      exact h.proj_lt p (hsubp.mem hp)
    · simp only
      rw [hrem]
      exact h.proj_nodup.sublist (hsubp.map Project.id)
    · intro t ht
      simp only [allTasks_eq] at ht
      rw [hrem] at ht
      have : List.Sublist (tasksOf (l₁ ++ l₂)) (tasksOf app.projects) := by
        rw [hl, tasksOf_append, tasksOf_append, tasksOf_cons]
        exact (List.Sublist.refl (tasksOf l₁)).append
          (List.sublist_append_right project.tasks (tasksOf l₂))
      exact h.task_lt t (by rw [allTasks_eq]; exact this.mem ht)
    · simp only [allTasks_eq]
      rw [hrem]
      have : List.Sublist (tasksOf (l₁ ++ l₂)) (tasksOf app.projects) := by
        rw [hl, tasksOf_append, tasksOf_append, tasksOf_cons]
        exact (List.Sublist.refl (tasksOf l₁)).append
          (List.sublist_append_right project.tasks (tasksOf l₂))
      have hold := h.task_nodup
      rw [allTasks_eq] at hold
      exact hold.sublist (this.map Task.id)
    · simp only
      rw [hrem]
      exact le_trans (List.Sublist.length_le hsubp) h.proj_count
    · intro p hp
      simp only at hp
      rw [hrem] at hp
      exact h.task_count p (hsubp.mem hp)

lemma inv_add_task {app : ToDoApp} (h : Inv app) (i : Nat) (t d : String) :
    Inv (add_task app i t d).2 := by
  unfold add_task
  split
  · exact h
  rename_i project hf
  split
  · exact h
  split
  · exact h
  rename_i hcount hblank
  show Inv { app with
      projects := replace_project app.projects i
        ({ project with
            tasks := project.tasks ++ [⟨app.nextTaskId, pyStrip t, pyStrip d, "todo"⟩] }),
      nextTaskId := app.nextTaskId + 1 }
  set tsk : Task := ⟨app.nextTaskId, pyStrip t, pyStrip d, "todo"⟩ with htsk
  set p : Project := { project with tasks := project.tasks ++ [tsk] } with hp
  obtain ⟨l₁, l₂, hl, hnone, hrep⟩ := find_replace_project_decomp hf p
  have hpmem : project ∈ app.projects := find_project_mem hf
  have hperm : List.Perm
      ((tasksOf l₁ ++ (p.tasks ++ tasksOf l₂)).map Task.id)
      (app.nextTaskId :: (allTasks app).map Task.id) := by
    rw [allTasks_eq, hl, tasksOf_append, tasksOf_cons]
    simp only [hp, htsk, List.map_append, List.map_cons, List.map_nil]
    have h1 : ∀ (A B C : List Nat) (n : Nat),
        List.Perm (A ++ (B ++ [n] ++ C)) (n :: (A ++ (B ++ C))) := by
      intro A B C n
      have e1 : A ++ (B ++ [n] ++ C) = (A ++ B) ++ n :: C := by simp
      have e2 : n :: (A ++ (B ++ C)) = n :: ((A ++ B) ++ C) := by simp
      rw [e1, e2]
      exact List.perm_middle
    exact h1 _ _ _ _
  constructor
  · intro q hq
    simp only at hq
    rw [hrep] at hq
    rcases List.mem_append.mp hq with hq | hq
    · exact h.proj_lt q (by rw [hl]; exact List.mem_append_left _ hq)
    · rcases List.mem_cons.mp hq with hq | hq
      · subst hq
        exact h.proj_lt project hpmem
      · exact h.proj_lt q
          (by rw [hl]; exact List.mem_append_right _ (List.mem_cons_of_mem _ hq))
  · simp only
    rw [hrep]
    have : (l₁ ++ p :: l₂).map Project.id = (l₁ ++ project :: l₂).map Project.id := by
      simp [hp]
    rw [this, ← hl]
    exact h.proj_nodup
  · intro u hu
    simp only [allTasks_eq] at hu
    rw [hrep, tasksOf_append, tasksOf_cons] at hu
    have hmm : u.id ∈ (tasksOf l₁ ++ (p.tasks ++ tasksOf l₂)).map Task.id :=
      List.mem_map_of_mem Task.id hu
    have hin := hperm.mem_iff.mp hmm
    rcases List.mem_cons.mp hin with hin | hin
    · simp only
      omega
    · obtain ⟨v, hv, hvi⟩ := List.mem_map.mp hin
      have := h.task_lt v hv
      simp only
      omega
  · simp only [allTasks_eq]
    rw [hrep, tasksOf_append, tasksOf_cons]
    rw [hperm.nodup_iff, List.nodup_cons]
    refine ⟨?_, h.task_nodup⟩
    intro hmem
    obtain ⟨v, hv, hvi⟩ := List.mem_map.mp hmem
    have := h.task_lt v hv
    omega
  · have hc := h.proj_count
    rw [hl] at hc
    simp only
    rw [hrep]
    simpa using hc
  · intro q hq
    simp only at hq
    rw [hrep] at hq
    rcases List.mem_append.mp hq with hq | hq
    · exact h.task_count q (by rw [hl]; exact List.mem_append_left _ hq)
    · rcases List.mem_cons.mp hq with hq | hq
      · subst hq
        simp only [hp, List.length_append, List.length_cons, List.length_nil]
        omega
      · exact h.task_count q
          (by rw [hl]; exact List.mem_append_right _ (List.mem_cons_of_mem _ hq))

/-- Replacing a task by one with the same id keeps the project's task-id
list and task count unchanged. -/
lemma replace_task_same_id {project : Project} {j : Nat} {task : Task}
    (hft : find_task project j = some task) (tX : Task) (hX : tX.id = task.id) :
    (replace_task project.tasks j tX).map Task.id = project.tasks.map Task.id ∧
    (replace_task project.tasks j tX).length = project.tasks.length := by
  obtain ⟨t₁, t₂, hts, htnone, htrep⟩ := find_replace_task_decomp hft tX
  rw [htrep, hts]
  simp [hX]

lemma inv_edit_task {app : ToDoApp} (h : Inv app) (i j : Nat) (nt nd : String)
    (ns : Option String) : Inv (edit_task app i j nt nd ns).2 := by
  unfold edit_task
  split
  · exact h
  rename_i project hf
  split
  · exact h
  rename_i task hft
  have key : ∀ tX : Task, tX.id = task.id →
      Inv { app with projects := replace_project app.projects i ({ project with tasks := replace_task project.tasks j tX }) } := by
    intro tX hX
    obtain ⟨hmap, hlen⟩ := replace_task_same_id hft tX hX
    exact inv_replace_project h hf _ rfl (by rw [hmap]) (by rw [hlen])
  split
  · split
    · exact key _ rfl
    · exact key _ rfl
  · exact key _ rfl

lemma inv_delete_task {app : ToDoApp} (h : Inv app) (i j : Nat) :
    Inv (delete_task app i j).2 := by
  unfold delete_task
  split
  · exact h
  rename_i project hf
  split
  · exact h
  rename_i task hft
  obtain ⟨t₁, t₂, hts, htnone, htrem⟩ := find_remove_task_decomp hft
  show Inv { app with projects := replace_project app.projects i ({ project with tasks := remove_task project.tasks task }) }
  have hsub : List.Sublist ((remove_task project.tasks task).map Task.id)
      (project.tasks.map Task.id) := by
    rw [htrem, hts]
    exact List.Sublist.map Task.id
      ((List.Sublist.refl t₁).append (List.sublist_cons_self task t₂))
  have hlen : (remove_task project.tasks task).length ≤ project.tasks.length := by
    rw [htrem, hts]
    simp
  exact inv_replace_project h hf _ rfl hsub hlen

lemma inv_change_status {app : ToDoApp} (h : Inv app) (i j : Nat) (ns : String) :
    Inv (change_status app i j ns).2 := by
  unfold change_status
  split
  · exact h
  split
  · exact h
  rename_i project hf
  split
  · exact h
  rename_i task hft
  obtain ⟨hmap, hlen⟩ := replace_task_same_id hft { task with status := ns } rfl
  exact inv_replace_project h hf _ rfl (by rw [hmap]) (by rw [hlen])

lemma inv_applyOp {app : ToDoApp} (h : Inv app) (op : Op) : Inv (applyOp app op) := by
  cases op with
  | createProject n d => exact inv_create_project h n d
  | editProject i n d => exact inv_edit_project h i n d
  | deleteProject i => exact inv_delete_project h i
  | addTask i t d => exact inv_add_task h i t d
  | editTask i j t d ns => exact inv_edit_task h i j t d ns
  | deleteTask i j => exact inv_delete_task h i j
  | changeStatus i j ns => exact inv_change_status h i j ns

lemma inv_runOps {app : ToDoApp} (h : Inv app) (ops : List Op) :
    Inv (runOps app ops) := by
  induction ops generalizing app with
  | nil => exact h
  | cons op rest ih => exact ih (inv_applyOp h op)

/-- Every reachable tracker state satisfies the internal invariant. -/
lemma reachable_inv {app : ToDoApp} (h : Reachable app) : Inv app := by
  obtain ⟨mp, mt, ops, rfl⟩ := h
  exact inv_runOps (inv_init mp mt) ops

/-! ### Id allocation along a run -/

/-- Case analysis of `create_project`: it either fails leaving the state
untouched, or appends a fresh project carrying the current counter value
and bumps the counter. -/
lemma create_project_cases (app : ToDoApp) (n d : String) :
    ((create_project app n d).1.isOk = false ∧ (create_project app n d).2 = app) ∨
    (∃ p : Project, create_project app n d =
        (Except.ok p, { app with
            projects := app.projects ++ [p],
            nextProjectId := app.nextProjectId + 1 }) ∧
      p.id = app.nextProjectId ∧ p.name = pyStrip n ∧
      p.description = pyStrip d ∧ p.tasks = []) := by
  unfold create_project
  repeat' split
  · exact Or.inl ⟨rfl, rfl⟩
  · exact Or.inl ⟨rfl, rfl⟩
  · exact Or.inl ⟨rfl, rfl⟩
  · exact Or.inl ⟨rfl, rfl⟩
  · exact Or.inr ⟨_, rfl, rfl, rfl, rfl, rfl⟩

/-- Case analysis of `add_task`: it either fails leaving the state
untouched, or returns a fresh task carrying the current counter value and
bumps the counter. -/
lemma add_task_cases (app : ToDoApp) (i : Nat) (t d : String) :
    ((add_task app i t d).1.isOk = false ∧ (add_task app i t d).2 = app) ∨
    (∃ tk : Task, ∃ l : List Project, add_task app i t d =
        (Except.ok tk, { app with
            projects := l,
            nextTaskId := app.nextTaskId + 1 }) ∧
      tk.id = app.nextTaskId) := by
  unfold add_task
  repeat' split
  · exact Or.inl ⟨rfl, rfl⟩
  · exact Or.inl ⟨rfl, rfl⟩
  · exact Or.inl ⟨rfl, rfl⟩
  · exact Or.inr ⟨_, _, rfl, rfl⟩

/-- The five operations that are not `create_project`/`add_task` never touch
either id counter. -/
lemma counters_edit_project (app : ToDoApp) (i : Nat) (n d : String) :
    (edit_project app i n d).2.nextProjectId = app.nextProjectId ∧
    (edit_project app i n d).2.nextTaskId = app.nextTaskId := by
  unfold edit_project
  repeat' split
  all_goals exact ⟨rfl, rfl⟩

lemma counters_delete_project (app : ToDoApp) (i : Nat) :
    (delete_project app i).2.nextProjectId = app.nextProjectId ∧
    (delete_project app i).2.nextTaskId = app.nextTaskId := by
  unfold delete_project
  repeat' split
  all_goals exact ⟨rfl, rfl⟩

lemma counters_edit_task (app : ToDoApp) (i j : Nat) (nt nd : String) (ns : Option String) :
    (edit_task app i j nt nd ns).2.nextProjectId = app.nextProjectId ∧
    (edit_task app i j nt nd ns).2.nextTaskId = app.nextTaskId := by
  unfold edit_task
  repeat' split
  all_goals exact ⟨rfl, rfl⟩

lemma counters_delete_task (app : ToDoApp) (i j : Nat) :
    (delete_task app i j).2.nextProjectId = app.nextProjectId ∧
    (delete_task app i j).2.nextTaskId = app.nextTaskId := by
  unfold delete_task
  repeat' split
  all_goals exact ⟨rfl, rfl⟩

lemma counters_change_status (app : ToDoApp) (i j : Nat) (ns : String) :
    (change_status app i j ns).2.nextProjectId = app.nextProjectId ∧
    (change_status app i j ns).2.nextTaskId = app.nextTaskId := by
  unfold change_status
  repeat' split
  all_goals exact ⟨rfl, rfl⟩

lemma next_pid_le_applyOp (app : ToDoApp) (op : Op) :
    app.nextProjectId ≤ (applyOp app op).nextProjectId := by
  cases op with
  | createProject n d =>
    show app.nextProjectId ≤ (create_project app n d).2.nextProjectId
    rcases create_project_cases app n d with ⟨_, h2⟩ | ⟨p, h2, _⟩
    · rw [h2]
    · rw [h2]
      exact Nat.le_succ _
  | editProject i n d => exact le_of_eq (counters_edit_project app i n d).1.symm
  | deleteProject i => exact le_of_eq (counters_delete_project app i).1.symm
  | addTask i t d =>
    show app.nextProjectId ≤ (add_task app i t d).2.nextProjectId
    rcases add_task_cases app i t d with ⟨_, h2⟩ | ⟨tk, l, h2, _⟩
    · rw [h2]
    · rw [h2]
  | editTask i j t d ns => exact le_of_eq (counters_edit_task app i j t d ns).1.symm
  | deleteTask i j => exact le_of_eq (counters_delete_task app i j).1.symm
  | changeStatus i j ns => exact le_of_eq (counters_change_status app i j ns).1.symm

lemma next_tid_le_applyOp (app : ToDoApp) (op : Op) :
    app.nextTaskId ≤ (applyOp app op).nextTaskId := by
  cases op with
  | createProject n d =>
    show app.nextTaskId ≤ (create_project app n d).2.nextTaskId
    rcases create_project_cases app n d with ⟨_, h2⟩ | ⟨p, h2, _⟩
    · rw [h2]
    · rw [h2]
  | editProject i n d => exact le_of_eq (counters_edit_project app i n d).2.symm
  | deleteProject i => exact le_of_eq (counters_delete_project app i).2.symm
  | addTask i t d =>
    show app.nextTaskId ≤ (add_task app i t d).2.nextTaskId
    rcases add_task_cases app i t d with ⟨_, h2⟩ | ⟨tk, l, h2, _⟩
    · rw [h2]
    · rw [h2]
      exact Nat.le_succ _
  | editTask i j t d ns => exact le_of_eq (counters_edit_task app i j t d ns).2.symm
  | deleteTask i j => exact le_of_eq (counters_delete_task app i j).2.symm
  | changeStatus i j ns => exact le_of_eq (counters_change_status app i j ns).2.symm

lemma op_alloc_pid_spec (app : ToDoApp) (op : Op) :
    ∀ x ∈ op_alloc_pid app op,
      x = app.nextProjectId ∧ (applyOp app op).nextProjectId = app.nextProjectId + 1 := by
  cases op with
  | createProject n d =>
    rcases create_project_cases app n d with ⟨h1, h2⟩ | ⟨p, h2, hid, _⟩
    · have he : op_alloc_pid app (Op.createProject n d) = [] := by
        cases hok : (create_project app n d).1 with
        | ok p =>
          rw [hok] at h1
          exact Bool.noConfusion h1
        | error e => simp [op_alloc_pid, hok]
      rw [he]
      intro x hx
      exact absurd hx (List.not_mem_nil x)
    · have he : op_alloc_pid app (Op.createProject n d) = [p.id] := by
        simp [op_alloc_pid, h2]
      rw [he]
      intro x hx
      have hx2 : x = p.id := by simpa using hx
      refine ⟨by rw [hx2, hid], ?_⟩
      show (create_project app n d).2.nextProjectId = app.nextProjectId + 1
      rw [h2]
  | editProject i n d => intro x hx; exact absurd hx (List.not_mem_nil x)
  | deleteProject i => intro x hx; exact absurd hx (List.not_mem_nil x)
  | addTask i t d => intro x hx; exact absurd hx (List.not_mem_nil x)
  | editTask i j t d ns => intro x hx; exact absurd hx (List.not_mem_nil x)
  | deleteTask i j => intro x hx; exact absurd hx (List.not_mem_nil x)
  | changeStatus i j ns => intro x hx; exact absurd hx (List.not_mem_nil x)

lemma op_alloc_tid_spec (app : ToDoApp) (op : Op) :
    ∀ x ∈ op_alloc_tid app op,
      x = app.nextTaskId ∧ (applyOp app op).nextTaskId = app.nextTaskId + 1 := by
  cases op with
  | addTask i t d =>
    rcases add_task_cases app i t d with ⟨h1, h2⟩ | ⟨tk, l, h2, hid⟩
    · have he : op_alloc_tid app (Op.addTask i t d) = [] := by
        cases hok : (add_task app i t d).1 with
        | ok tk =>
          rw [hok] at h1
          exact Bool.noConfusion h1
        | error e => simp [op_alloc_tid, hok]
      rw [he]
      intro x hx
      exact absurd hx (List.not_mem_nil x)
    · have he : op_alloc_tid app (Op.addTask i t d) = [tk.id] := by
        simp [op_alloc_tid, h2]
      rw [he]
      intro x hx
      have hx2 : x = tk.id := by simpa using hx
      refine ⟨by rw [hx2, hid], ?_⟩
      show (add_task app i t d).2.nextTaskId = app.nextTaskId + 1
      rw [h2]
  | createProject n d => intro x hx; exact absurd hx (List.not_mem_nil x)
  | editProject i n d => intro x hx; exact absurd hx (List.not_mem_nil x)
  | deleteProject i => intro x hx; exact absurd hx (List.not_mem_nil x)
  | editTask i j t d ns => intro x hx; exact absurd hx (List.not_mem_nil x)
  | deleteTask i j => intro x hx; exact absurd hx (List.not_mem_nil x)
  | changeStatus i j ns => intro x hx; exact absurd hx (List.not_mem_nil x)

lemma allocated_pid_lb (ops : List Op) :
    ∀ app, ∀ x ∈ allocated_project_ids app ops, app.nextProjectId ≤ x := by
  induction ops with
  | nil => intro app x hx; simp [allocated_project_ids] at hx
  | cons op rest ih =>
    intro app x hx
    simp only [allocated_project_ids] at hx
    rcases List.mem_append.mp hx with hx | hx
    · exact le_of_eq (op_alloc_pid_spec app op x hx).1.symm
    · exact le_trans (next_pid_le_applyOp app op) (ih (applyOp app op) x hx)

lemma allocated_tid_lb (ops : List Op) :
    ∀ app, ∀ x ∈ allocated_task_ids app ops, app.nextTaskId ≤ x := by
  induction ops with
  | nil => intro app x hx; simp [allocated_task_ids] at hx
  | cons op rest ih =>
    intro app x hx
    simp only [allocated_task_ids] at hx
    rcases List.mem_append.mp hx with hx | hx
    · exact le_of_eq (op_alloc_tid_spec app op x hx).1.symm
    · exact le_trans (next_tid_le_applyOp app op) (ih (applyOp app op) x hx)

lemma allocated_pid_sorted (ops : List Op) :
    ∀ app, (allocated_project_ids app ops).Pairwise (· < ·) := by
  induction ops with
  | nil => intro app; simp [allocated_project_ids]
  | cons op rest ih =>
    intro app
    simp only [allocated_project_ids]
    rw [List.pairwise_append]
    refine ⟨?_, ih (applyOp app op), ?_⟩
    · cases op with
      | createProject n d =>
        simp only [op_alloc_pid]
        cases (create_project app n d).1 <;> simp
      | editProject i n d => simp [op_alloc_pid]
      | deleteProject i => simp [op_alloc_pid]
      | addTask i t d => simp [op_alloc_pid]
      | editTask i j t d ns => simp [op_alloc_pid]
      | deleteTask i j => simp [op_alloc_pid]
      | changeStatus i j ns => simp [op_alloc_pid]
    · intro x hx y hy
      obtain ⟨hx1, hx2⟩ := op_alloc_pid_spec app op x hx
      have hy1 := allocated_pid_lb rest (applyOp app op) y hy
      rw [hx2] at hy1
      omega

lemma allocated_tid_sorted (ops : List Op) :
    ∀ app, (allocated_task_ids app ops).Pairwise (· < ·) := by
  induction ops with
  | nil => intro app; simp [allocated_task_ids]
  | cons op rest ih =>
    intro app
    simp only [allocated_task_ids]
    rw [List.pairwise_append]
    refine ⟨?_, ih (applyOp app op), ?_⟩
    · cases op with
      | addTask i t d =>
        simp only [op_alloc_tid]
        cases (add_task app i t d).1 <;> simp
      | createProject n d => simp [op_alloc_tid]
      | editProject i n d => simp [op_alloc_tid]
      | deleteProject i => simp [op_alloc_tid]
      | editTask i j t d ns => simp [op_alloc_tid]
      | deleteTask i j => simp [op_alloc_tid]
      | changeStatus i j ns => simp [op_alloc_tid]
    · intro x hx y hy
      obtain ⟨hx1, hx2⟩ := op_alloc_tid_spec app op x hx
      have hy1 := allocated_tid_lb rest (applyOp app op) y hy
      rw [hx2] at hy1
      omega

/-! ### Result-shape lemmas for the editing operations -/

/-- A task lookup succeeds on a decomposed list whose head part has no
match. -/
lemma find_task_of_decomp {l₁ l₂ : List Task} {j : Nat} {t : Task}
    (hnone : ∀ r ∈ l₁, r.id ≠ j) (ht : t.id = j) :
    (l₁ ++ t :: l₂).find? (fun r => r.id == j) = some t := by
  induction l₁ with
  | nil => simp [List.find?_cons_of_pos, ht]
  | cons r rest ih =>
    have hr : (r.id == j) = false := by
      simpa using hnone r (List.mem_cons_self r rest)
    rw [List.cons_append, List.find?_cons_of_neg _ (by simp [hr])]
    exact ih (fun x hx => hnone x (List.mem_cons_of_mem r hx))

lemma edit_task_none_eq {app : ToDoApp} {pid tid : Nat} (nt nd : String)
    {project : Project} {task : Task}
    (hf : find_project app pid = some project) (hft : find_task project tid = some task) :
    edit_task app pid tid nt nd none =
      (Except.error "Invalid status value.",
        { app with projects := replace_project app.projects pid ({ project with tasks := replace_task project.tasks tid ({ task with title := pyStrip nt, description := pyStrip nd }) }) }) := by
  simp [edit_task, hf, hft]

lemma edit_task_invalid_eq {app : ToDoApp} {pid tid : Nat} (nt nd : String) {s : String}
    {project : Project} {task : Task}
    (hf : find_project app pid = some project) (hft : find_task project tid = some task)
    (hs : valid_status s = false) :
    edit_task app pid tid nt nd (some s) =
      (Except.error "Invalid status value.",
        { app with projects := replace_project app.projects pid ({ project with tasks := replace_task project.tasks tid ({ task with title := pyStrip nt, description := pyStrip nd }) }) }) := by
  simp [edit_task, hf, hft, hs]

lemma edit_task_valid_eq {app : ToDoApp} {pid tid : Nat} (nt nd : String) {s : String}
    {project : Project} {task : Task}
    (hf : find_project app pid = some project) (hft : find_task project tid = some task)
    (hs : valid_status s = true) :
    edit_task app pid tid nt nd (some s) =
      (Except.ok ({ task with title := pyStrip nt, description := pyStrip nd, status := s }),
        { app with projects := replace_project app.projects pid ({ project with tasks := replace_task project.tasks tid ({ task with title := pyStrip nt, description := pyStrip nd, status := s }) }) }) := by
  simp [edit_task, hf, hft, hs]

lemma change_status_valid_eq {app : ToDoApp} {pid tid : Nat} {s : String}
    {project : Project} {task : Task}
    (hf : find_project app pid = some project) (hft : find_task project tid = some task)
    (hs : valid_status s = true) :
    change_status app pid tid s =
      (Except.ok ({ task with status := s }),
        { app with projects := replace_project app.projects pid ({ project with tasks := replace_task project.tasks tid ({ task with status := s }) }) }) := by
  simp [change_status, hf, hft, hs]

/-- After replacing the found project by one with the same id, the project
lookup returns the replacement. -/
lemma find_project_after_replace {app : ToDoApp} {pid : Nat} {project : Project}
    (hf : find_project app pid = some project) (p : Project) (hid : p.id = pid) :
    find_project { app with projects := replace_project app.projects pid p } pid = some p := by
  obtain ⟨l₁, l₂, hl, hnone, hrep⟩ := find_replace_project_decomp hf p
  show (replace_project app.projects pid p).find? (fun r => r.id == pid) = some p
  rw [hrep]
  exact find_project_of_decomp hnone hid

/-- After replacing the found task by one with the same id, the task lookup
returns the replacement. -/
lemma find_task_after_replace {project : Project} {tid : Nat} {task : Task}
    (hft : find_task project tid = some task) (t : Task) (hid : t.id = tid) :
    find_task { project with tasks := replace_task project.tasks tid t } tid = some t := by
  obtain ⟨l₁, l₂, hl, hnone, hrep⟩ := find_replace_task_decomp hft t
  show (replace_task project.tasks tid t).find? (fun r => r.id == tid) = some t
  rw [hrep]
  exact find_task_of_decomp hnone hid

/-! ### Atomicity on failure (all operations except `edit_task`) -/

lemma create_project_atomic (app : ToDoApp) (n d : String)
    (h : (create_project app n d).1.isOk = false) : (create_project app n d).2 = app := by
  rcases create_project_cases app n d with ⟨_, h2⟩ | ⟨p, h2, _⟩
  · exact h2
  · rw [h2] at h
    exact Bool.noConfusion h

lemma edit_project_cases (app : ToDoApp) (i : Nat) (n d : String) :
    ((edit_project app i n d).1.isOk = false ∧ (edit_project app i n d).2 = app) ∨
    (edit_project app i n d).1.isOk = true := by
  unfold edit_project
  repeat' split
  · exact Or.inl ⟨rfl, rfl⟩
  · exact Or.inl ⟨rfl, rfl⟩
  · exact Or.inr rfl

lemma edit_project_atomic (app : ToDoApp) (i : Nat) (n d : String)
    (h : (edit_project app i n d).1.isOk = false) : (edit_project app i n d).2 = app := by
  rcases edit_project_cases app i n d with ⟨_, h2⟩ | h2
  · exact h2
  · rw [h2] at h
    exact Bool.noConfusion h

lemma delete_project_cases (app : ToDoApp) (i : Nat) :
    ((delete_project app i).1.isOk = false ∧ (delete_project app i).2 = app) ∨
    (delete_project app i).1.isOk = true := by
  unfold delete_project
  repeat' split
  · exact Or.inl ⟨rfl, rfl⟩
  · exact Or.inr rfl

lemma delete_project_atomic (app : ToDoApp) (i : Nat)
    (h : (delete_project app i).1.isOk = false) : (delete_project app i).2 = app := by
  rcases delete_project_cases app i with ⟨_, h2⟩ | h2
  · exact h2
  · rw [h2] at h
    exact Bool.noConfusion h

lemma add_task_atomic (app : ToDoApp) (i : Nat) (t d : String)
    (h : (add_task app i t d).1.isOk = false) : (add_task app i t d).2 = app := by
  rcases add_task_cases app i t d with ⟨_, h2⟩ | ⟨tk, l, h2, _⟩
  · exact h2
  · rw [h2] at h
    exact Bool.noConfusion h

lemma delete_task_cases (app : ToDoApp) (i j : Nat) :
    ((delete_task app i j).1.isOk = false ∧ (delete_task app i j).2 = app) ∨
    (delete_task app i j).1.isOk = true := by
  unfold delete_task
  repeat' split
  · exact Or.inl ⟨rfl, rfl⟩
  · exact Or.inl ⟨rfl, rfl⟩
  · exact Or.inr rfl

lemma delete_task_atomic (app : ToDoApp) (i j : Nat)
    (h : (delete_task app i j).1.isOk = false) : (delete_task app i j).2 = app := by
  rcases delete_task_cases app i j with ⟨_, h2⟩ | h2
  · exact h2
  · rw [h2] at h
    exact Bool.noConfusion h

lemma change_status_cases (app : ToDoApp) (i j : Nat) (ns : String) :
    ((change_status app i j ns).1.isOk = false ∧ (change_status app i j ns).2 = app) ∨
    (change_status app i j ns).1.isOk = true := by
  unfold change_status
  repeat' split
  · exact Or.inl ⟨rfl, rfl⟩
  · exact Or.inl ⟨rfl, rfl⟩
  · exact Or.inl ⟨rfl, rfl⟩
  · exact Or.inr rfl

lemma change_status_atomic (app : ToDoApp) (i j : Nat) (ns : String)
    (h : (change_status app i j ns).1.isOk = false) : (change_status app i j ns).2 = app := by
  rcases change_status_cases app i j ns with ⟨_, h2⟩ | h2
  · exact h2
  · rw [h2] at h
    exact Bool.noConfusion h

/-! ### Cross-project disjointness of task ids -/

lemma mem_sublist_tasksOf {p : Project} {l : List Project} (hp : p ∈ l) :
    List.Sublist p.tasks (tasksOf l) := by
  obtain ⟨s, t, rfl⟩ := List.append_of_mem hp
  rw [tasksOf_append, tasksOf_cons]
  exact List.Sublist.trans (List.sublist_append_left p.tasks (tasksOf t))
    (List.sublist_append_right (tasksOf s) _)

/-- Globally duplicate-free task ids separate the task blocks of two
distinct projects. -/
lemma nodup_flatten_disjoint {l : List Project}
    (h : ((tasksOf l).map Task.id).Nodup) {p q : Project}
    (hp : p ∈ l) (hq : q ∈ l) (hne : p ≠ q)
    {t u : Task} (ht : t ∈ p.tasks) (hu : u ∈ q.tasks) : t.id ≠ u.id := by
  induction l with
  | nil => simp at hp
  | cons r rest ih =>
    rw [tasksOf_cons, List.map_append, List.nodup_append] at h
    obtain ⟨h1, h2, hdisj⟩ := h
    rcases List.mem_cons.mp hp with hp1 | hp1 <;> rcases List.mem_cons.mp hq with hq1 | hq1
    · exact absurd (hp1.trans hq1.symm) hne
    · subst hp1
      intro he
      exact hdisj (List.mem_map_of_mem Task.id ht)
        (by rw [he]; exact List.mem_map_of_mem Task.id ((mem_sublist_tasksOf hq1).mem hu))
    · subst hq1
      intro he
      exact hdisj (List.mem_map_of_mem Task.id hu)
        (by rw [← he]; exact List.mem_map_of_mem Task.id ((mem_sublist_tasksOf hp1).mem ht))
    · exact ih h2 hp1 hq1

/-! ### Claim theorems -/

/-- C10: task ids are globally unique across the whole tracker, not merely
within one project — `add_task` draws from the single tracker-wide counter
`_next_task_id`, so in every reachable state no two tasks anywhere (even in
different projects) share an id. -/
theorem c10_task_ids_globally_unique (app : ToDoApp) (h : Reachable app) :
    ((allTasks app).map Task.id).Nodup ∧
    (∀ p ∈ app.projects, ∀ q ∈ app.projects, p ≠ q →
      ∀ t ∈ p.tasks, ∀ u ∈ q.tasks, t.id ≠ u.id) := by
  have inv := reachable_inv h
  refine ⟨inv.task_nodup, ?_⟩
  intro p hp q hq hne t ht u hu
  have hnd := inv.task_nodup
  rw [allTasks_eq] at hnd
  exact nodup_flatten_disjoint hnd hp hq hne ht hu

theorem c10_task_ids_globally_unique_witness :
    Reachable appA ∧ ((allTasks appA).map Task.id).Nodup :=
  ⟨⟨10, 100, appA_ops, rfl⟩,
    (c10_task_ids_globally_unique appA ⟨10, 100, appA_ops, rfl⟩).1⟩

/-- C9: in every reachable state the project count is at most the
configured `max_projects` and every project's task count is at most the
configured `max_tasks`; `create_project` at the project limit and
`add_task` at the task limit always fail and change nothing. -/
theorem c9_capacity_limits (app : ToDoApp) (h : Reachable app) :
    app.projects.length ≤ app.maxProjects ∧
    (∀ p ∈ app.projects, p.tasks.length ≤ app.maxTasks) ∧
    (∀ n d, app.projects.length = app.maxProjects →
      (create_project app n d).1.isOk = false ∧ (create_project app n d).2 = app) ∧
    (∀ i t d p, find_project app i = some p → p.tasks.length = app.maxTasks →
      (add_task app i t d).1.isOk = false ∧ (add_task app i t d).2 = app) := by
  have inv := reachable_inv h
  refine ⟨inv.proj_count, inv.task_count, ?_, ?_⟩
  · intro n d hfull
    have hge : app.projects.length ≥ app.maxProjects := le_of_eq hfull.symm
    unfold create_project
    rw [if_pos hge]
    exact ⟨rfl, rfl⟩
  · intro i t d p hf hfull
    have hge : p.tasks.length ≥ app.maxTasks := le_of_eq hfull.symm
    have : add_task app i t d = (Except.error "Task limit reached for this project.", app) := by
      simp [add_task, hf, hge]
    rw [this]
    exact ⟨rfl, rfl⟩

theorem c9_capacity_limits_witness :
    ((create_project (initApp 0 100) "A" "").1.isOk = false ∧
      (create_project (initApp 0 100) "A" "").2 = initApp 0 100) ∧
    ((add_task appT 1 "t" "").1.isOk = false ∧ (add_task appT 1 "t" "").2 = appT) :=
  ⟨(c9_capacity_limits (initApp 0 100) ⟨0, 100, [], rfl⟩).2.2.1 "A" "" (by decide),
    (c9_capacity_limits appT ⟨10, 0, [Op.createProject "A" ""], rfl⟩).2.2.2
      1 "t" "" ⟨1, "A", "", []⟩ (by decide) (by decide)⟩

/-- C7: project and task ids are allocated from monotonic counters starting
at 1: along any call sequence from a fresh tracker, the ids handed out by
successful `create_project` (respectively `add_task`) calls are strictly
increasing in call order — hence never reused, even across deletions — and
every allocated id is at least 1. -/
theorem c7_ids_strictly_increasing (mp mt : Nat) (ops : List Op) :
    (allocated_project_ids (initApp mp mt) ops).Pairwise (· < ·) ∧
    (allocated_task_ids (initApp mp mt) ops).Pairwise (· < ·) ∧
    (allocated_project_ids (initApp mp mt) ops).Nodup ∧
    (allocated_task_ids (initApp mp mt) ops).Nodup ∧
    (∀ x ∈ allocated_project_ids (initApp mp mt) ops, 1 ≤ x) ∧
    (∀ x ∈ allocated_task_ids (initApp mp mt) ops, 1 ≤ x) := by
  have hp := allocated_pid_sorted ops (initApp mp mt)
  have ht := allocated_tid_sorted ops (initApp mp mt)
  refine ⟨hp, ht, hp.imp Nat.ne_of_lt, ht.imp Nat.ne_of_lt, ?_, ?_⟩
  · intro x hx
    exact allocated_pid_lb ops (initApp mp mt) x hx
  · intro x hx
    exact allocated_tid_lb ops (initApp mp mt) x hx

theorem c7_ids_strictly_increasing_witness :
    (1 ∈ allocated_project_ids (initApp 10 100) appA_ops ∧
      (1 : Nat) ≤ 1) ∧
    (allocated_project_ids (initApp 10 100) appA_ops).Nodup :=
  ⟨⟨by decide, (c7_ids_strictly_increasing 10 100 appA_ops).2.2.2.2.1 1 (by decide)⟩,
    (c7_ids_strictly_increasing 10 100 appA_ops).2.2.1⟩

/-- C8: `delete_project` on an existing project succeeds and removes the
project together with all of its tasks: afterwards `list_tasks` on that id
fails with the not-found error, and no remaining project holds a task whose
id belonged to the deleted project (no orphaned tasks). -/
theorem c8_delete_project_cascades (app : ToDoApp) (h : Reachable app) (pid : Nat)
    (project : Project) (hf : find_project app pid = some project) :
    (delete_project app pid).1.isOk = true ∧
    (list_tasks (delete_project app pid).2 pid).isOk = false ∧
    (∀ q ∈ (delete_project app pid).2.projects, ∀ u ∈ q.tasks,
      ∀ t ∈ project.tasks, u.id ≠ t.id) := by
  have inv := reachable_inv h
  have hpid : project.id = pid := find_project_id hf
  obtain ⟨l₁, l₂, hl, hnone, hrem⟩ := find_remove_project_decomp hf
  have hres : delete_project app pid =
      (Except.ok (), { app with projects := remove_project app.projects project }) := by
    simp [delete_project, hf]
  -- no project of the remainder carries the deleted id
  have hl₂ : ∀ r ∈ l₂, r.id ≠ pid := by
    have hnd := inv.proj_nodup
    rw [hl, List.map_append, List.nodup_append] at hnd
    have hcons := hnd.2.1
    rw [List.map_cons, List.nodup_cons] at hcons
    intro r hr he
    apply hcons.1
    have h3 : project.id = r.id := by rw [hpid, he]
    rw [h3]
    exact List.mem_map_of_mem Project.id hr
  have hrest : ∀ r ∈ l₁ ++ l₂, r.id ≠ pid := by
    intro r hr
    rcases List.mem_append.mp hr with hr | hr
    · exact hnone r hr
    · exact hl₂ r hr
  have hfind : find_project (delete_project app pid).2 pid = none := by
    rw [hres]
    show (remove_project app.projects project).find? (fun r => r.id == pid) = none
    rw [hrem]
    exact find_project_eq_none hrest
  refine ⟨by rw [hres]; exact rfl, ?_, ?_⟩
  · have h4 : list_tasks (delete_project app pid).2 pid = Except.error "Project not found." := by
      simp [list_tasks, hfind]
    rw [h4]
    exact rfl
  · intro q hq u hu t ht
    rw [hres] at hq
    have hq2 : q ∈ l₁ ++ l₂ := by
      simpa [hrem] using hq
    have hqmem : q ∈ app.projects := by
      rw [hl]
      rcases List.mem_append.mp hq2 with hq3 | hq3
      · exact List.mem_append_left _ hq3
      · exact List.mem_append_right _ (List.mem_cons_of_mem _ hq3)
    have hneq : q ≠ project := by
      intro he
      exact hrest q hq2 (by rw [he, hpid])
    have hnd := inv.task_nodup
    rw [allTasks_eq] at hnd
    exact nodup_flatten_disjoint hnd hqmem (find_project_mem hf) hneq hu ht

theorem c8_delete_project_cascades_witness :
    (delete_project appA 1).1.isOk = true ∧
    (list_tasks (delete_project appA 1).2 1).isOk = false :=
  ⟨(c8_delete_project_cascades appA ⟨10, 100, appA_ops, rfl⟩ 1
      ⟨1, "A", "", [⟨1, "t", "d", "todo"⟩]⟩ (by decide)).1,
    (c8_delete_project_cascades appA ⟨10, 100, appA_ops, rfl⟩ 1
      ⟨1, "A", "", [⟨1, "t", "d", "todo"⟩]⟩ (by decide)).2.1⟩

/-- C6: `change_status` succeeds exactly when the status string is one of
todo / doing / done and the addressed project and task exist; every other
string (case variants, the empty string) is rejected.  On success the
returned task carries the new status and the stored task is updated to it. -/
theorem c6_change_status_exact (app : ToDoApp) (pid tid : Nat) (s : String) :
    ((change_status app pid tid s).1.isOk = true ↔
      ((s = "todo" ∨ s = "doing" ∨ s = "done") ∧
        ∃ p, find_project app pid = some p ∧ (find_task p tid).isSome = true)) ∧
    (∀ t, (change_status app pid tid s).1 = Except.ok t →
      t.status = s ∧
      ∃ q, find_project (change_status app pid tid s).2 pid = some q ∧
        find_task q tid = some t) := by
  by_cases hvs : valid_status s = true
  case neg =>
    have heq : change_status app pid tid s = (Except.error "Invalid status.", app) := by
      simp [change_status, hvs]
    constructor
    · rw [heq]
      constructor
      · intro hok
        exact Bool.noConfusion hok
      · rintro ⟨hsv, -⟩
        exfalso
        apply hvs
        rcases hsv with h1 | h1 | h1 <;> simp [valid_status, h1]
    · intro t hok
      rw [heq] at hok
      exact Except.noConfusion hok
  case pos =>
    rcases hfp : find_project app pid with _ | project
    · have heq : change_status app pid tid s = (Except.error "Project not found.", app) := by
        simp [change_status, hfp, hvs]
      constructor
      · rw [heq]
        constructor
        · intro hok
          exact Bool.noConfusion hok
        · rintro ⟨-, p, hp, -⟩
          exact Option.noConfusion hp
      · intro t hok
        rw [heq] at hok
        exact Except.noConfusion hok
    · rcases hft : find_task project tid with _ | task
      · have heq : change_status app pid tid s = (Except.error "Task not found.", app) := by
          simp [change_status, hfp, hft, hvs]
        constructor
        · rw [heq]
          constructor
          · intro hok
            exact Bool.noConfusion hok
          · rintro ⟨-, p, hp, hps⟩
            obtain rfl : project = p := Option.some.inj hp
            rw [hft] at hps
            exact Bool.noConfusion hps
        · intro t hok
          rw [heq] at hok
          exact Except.noConfusion hok
      · have heq := change_status_valid_eq hfp hft hvs
        constructor
        · constructor
          · intro _
            refine ⟨?_, project, rfl, by rw [hft]; rfl⟩
            have h2 : (s = "todo" ∨ s = "doing") ∨ s = "done" := by
              simpa [valid_status] using hvs
            exact or_assoc.mp h2
          · intro _
            rw [heq]
            exact rfl
        · intro t hok
          rw [heq] at hok
          have ht : ({ task with status := s }) = t := Except.ok.inj hok
          subst ht
          refine ⟨rfl, { project with tasks := replace_task project.tasks tid ({ task with status := s }) }, ?_, ?_⟩
          · rw [heq]
            exact find_project_after_replace hfp
              ({ project with tasks := replace_task project.tasks tid ({ task with status := s }) })
              (by have h5 := find_project_id hfp; exact h5)
          · exact find_task_after_replace hft ({ task with status := s })
              (by have h5 := find_task_id hft; exact h5)

theorem c6_change_status_exact_witness :
    (change_status appA 1 1 "done").1.isOk = true ∧
    ((change_status appA 1 1 "Done").1.isOk = true ↔ False) ∧
    (⟨1, "t", "d", "done"⟩ : Task).status = "done" := by
  refine ⟨?_, ?_, ?_⟩
  · exact (c6_change_status_exact appA 1 1 "done").1.mpr
      ⟨Or.inr (Or.inr rfl), ⟨1, "A", "", [⟨1, "t", "d", "todo"⟩]⟩, by decide, by decide⟩
  · constructor
    · intro hok
      have hc := (c6_change_status_exact appA 1 1 "Done").1.mp hok
      rcases hc.1 with h1 | h1 | h1 <;> simp at h1
    · intro hfalse
      exact absurd hfalse not_false
  · exact ((c6_change_status_exact appA 1 1 "done").2 ⟨1, "t", "d", "done"⟩ (by decide)).1

/-- C1 counterexample: from the reachable state `appA` (task 1 titled "t"),
`edit_task` with an invalid status raises the error but has already
overwritten the task's title and description, so the state is NOT what it
was before the call. -/
theorem c1_counterexample :
    Reachable appA ∧
    find_project appA 1 = some ⟨1, "A", "", [⟨1, "t", "d", "todo"⟩]⟩ ∧
    (edit_task appA 1 1 "s" "e" (some "bogus")).1.isOk = false ∧
    (edit_task appA 1 1 "s" "e" (some "bogus")).2 ≠ appA ∧
    find_project (edit_task appA 1 1 "s" "e" (some "bogus")).2 1 =
      some ⟨1, "A", "", [⟨1, "s", "e", "todo"⟩]⟩ :=
  ⟨⟨10, 100, appA_ops, rfl⟩, by decide, by decide, by decide, by decide⟩

/-- C1 amended: every operation except `edit_task` leaves the state
unchanged when it fails; `edit_task` checks existence before mutating, but
overwrites the task's title and description BEFORE validating `new_status`,
so on an invalid status it fails with the status unchanged while title and
description already hold the trimmed new values. -/
theorem c1_edit_task_partial_mutation (app : ToDoApp) (pid tid : Nat)
    (nt nd s : String) (project : Project) (task : Task)
    (hf : find_project app pid = some project) (hft : find_task project tid = some task)
    (hs : valid_status s = false) :
    (edit_task app pid tid nt nd (some s)).1.isOk = false ∧
    (∃ q, find_project (edit_task app pid tid nt nd (some s)).2 pid = some q ∧
      find_task q tid = some ⟨task.id, pyStrip nt, pyStrip nd, task.status⟩) ∧
    (∀ n d, (create_project app n d).1.isOk = false → (create_project app n d).2 = app) ∧
    (∀ i n d, (edit_project app i n d).1.isOk = false → (edit_project app i n d).2 = app) ∧
    (∀ i, (delete_project app i).1.isOk = false → (delete_project app i).2 = app) ∧
    (∀ i t d, (add_task app i t d).1.isOk = false → (add_task app i t d).2 = app) ∧
    (∀ i j, (delete_task app i j).1.isOk = false → (delete_task app i j).2 = app) ∧
    (∀ i j ns, (change_status app i j ns).1.isOk = false → (change_status app i j ns).2 = app) := by
  have heq := edit_task_invalid_eq nt nd hf hft hs
  refine ⟨by rw [heq]; exact rfl, ?_, ?_, ?_, ?_, ?_, ?_, ?_⟩
  · refine ⟨{ project with tasks := replace_task project.tasks tid ({ task with title := pyStrip nt, description := pyStrip nd }) }, ?_, ?_⟩
    · rw [heq]
      exact find_project_after_replace hf
        ({ project with tasks := replace_task project.tasks tid ({ task with title := pyStrip nt, description := pyStrip nd }) })
        (by have h5 := find_project_id hf; exact h5)
    · exact find_task_after_replace hft ({ task with title := pyStrip nt, description := pyStrip nd })
        (by have h5 := find_task_id hft; exact h5)
  · exact fun n d h => create_project_atomic app n d h
  · exact fun i n d h => edit_project_atomic app i n d h
  · exact fun i h => delete_project_atomic app i h
  · exact fun i t d h => add_task_atomic app i t d h
  · exact fun i j h => delete_task_atomic app i j h
  · exact fun i j ns h => change_status_atomic app i j ns h

theorem c1_edit_task_partial_mutation_witness :
    (edit_task appA 1 1 "s" "e" (some "bogus")).1.isOk = false ∧
    (∃ q, find_project (edit_task appA 1 1 "s" "e" (some "bogus")).2 1 = some q ∧
      find_task q 1 = some ⟨1, pyStrip "s", pyStrip "e", "todo"⟩) :=
  ⟨(c1_edit_task_partial_mutation appA 1 1 "s" "e" "bogus"
      ⟨1, "A", "", [⟨1, "t", "d", "todo"⟩]⟩ ⟨1, "t", "d", "todo"⟩
      (by decide) (by decide) (by decide)).1,
    (c1_edit_task_partial_mutation appA 1 1 "s" "e" "bogus"
      ⟨1, "A", "", [⟨1, "t", "d", "todo"⟩]⟩ ⟨1, "t", "d", "todo"⟩
      (by decide) (by decide) (by decide)).2.1⟩

/-- C2 counterexample: the reachable state `appAB` holds the two live
projects "A" (id 1) and "a" (id 2), whose names are case-insensitively
equal — `edit_project` renamed project 2 without any duplicate check, so
the claimed invariant is not preserved by every operation. -/
theorem c2_counterexample :
    Reachable appAB ∧
    (⟨1, "A", "", []⟩ : Project) ∈ appAB.projects ∧
    (⟨2, "a", "", []⟩ : Project) ∈ appAB.projects ∧
    (1 : Nat) ≠ 2 ∧
    pyLower (pyStrip "A") = pyLower (pyStrip "a") ∧
    (edit_project appAB0 2 "a" "").1.isOk = true :=
  ⟨⟨10, 100, appAB0_ops ++ [Op.editProject 2 "a" ""], rfl⟩,
    by decide, by decide, by decide, by decide, by decide⟩

/-- C2 amended: `create_project` does enforce case-insensitive uniqueness —
with a duplicate present it always fails and leaves the state unchanged —
but `edit_project` performs no duplicate check at all: whenever the project
exists and the new name is non-blank it succeeds and stores the trimmed
name, even when another project already carries that name up to case. -/
theorem c2_uniqueness_create_only (app : ToDoApp) :
    (∀ n d, (∃ p ∈ app.projects, pyLower (pyStrip p.name) = pyLower (pyStrip n)) →
      (create_project app n d).1.isOk = false ∧ (create_project app n d).2 = app) ∧
    (∀ i nn nd project, find_project app i = some project → is_blank nn = false →
      (edit_project app i nn nd).1 =
        Except.ok ({ project with name := pyStrip nn, description := pyStrip nd })) := by
  constructor
  · intro n d hdup
    unfold create_project
    split
    · exact ⟨rfl, rfl⟩
    split
    · exact ⟨rfl, rfl⟩
    split
    · exact ⟨rfl, rfl⟩
    split
    · exact ⟨rfl, rfl⟩
    rename_i h4
    exfalso
    apply h4
    obtain ⟨p, hp, he⟩ := hdup
    exact List.any_eq_true.mpr ⟨p, hp, by simpa using he⟩
  · intro i nn nd project hf hb
    have heq : edit_project app i nn nd =
        (Except.ok ({ project with name := pyStrip nn, description := pyStrip nd }),
          { app with projects := replace_project app.projects i ({ project with name := pyStrip nn, description := pyStrip nd }) }) := by
      simp [edit_project, hf, hb]
    rw [heq]

theorem c2_uniqueness_create_only_witness :
    ((create_project appAB0 "a" "").1.isOk = false ∧ (create_project appAB0 "a" "").2 = appAB0) ∧
    (edit_project appAB0 2 "a" "").1 = Except.ok ⟨2, pyStrip "a", pyStrip "", []⟩ :=
  ⟨(c2_uniqueness_create_only appAB0).1 "a" "" ⟨⟨1, "A", "", []⟩, by decide, by decide⟩,
    (c2_uniqueness_create_only appAB0).2 2 "a" "" ⟨2, "B", "", []⟩ (by decide) (by decide)⟩

set_option maxRecDepth 8000 in
/-- C3 counterexample: `create_project` accepts a 201-character description
(the claim says trimmed descriptions longer than 200 are rejected), and
rejects a raw-length-51 name whose trimmed length is 49 (the claim says the
TRIMMED length decides). -/
theorem c3_counterexample :
    ((create_project (initApp 10 100) "A" bigDesc).1.isOk = true ∧
      pyLen (pyStrip bigDesc) = 201) ∧
    ((create_project (initApp 10 100) padName "").1.isOk = false ∧
      is_blank padName = false ∧
      1 ≤ pyLen (pyStrip padName) ∧ pyLen (pyStrip padName) ≤ 50 ∧
      (initApp 10 100).projects.length < (initApp 10 100).maxProjects) :=
  ⟨⟨by decide, by decide⟩, by decide, by decide, by decide, by decide, by decide⟩

/-- C3 amended: `create_project` fails exactly when the project count has
reached the maximum, or the name is blank, or the RAW (untrimmed) name
length is outside [1,50], or a case-insensitive duplicate of the trimmed
name exists; the description length is never checked.  On success it
appends a project with the trimmed name and description. -/
theorem c3_create_project_exact (app : ToDoApp) (n d : String) :
    ((create_project app n d).1.isOk = true ↔
      (app.projects.length < app.maxProjects ∧ is_blank n = false ∧
        1 ≤ pyLen n ∧ pyLen n ≤ 50 ∧
        ∀ p ∈ app.projects, pyLower (pyStrip p.name) ≠ pyLower (pyStrip n))) ∧
    ((create_project app n d).1.isOk = true →
      (create_project app n d).2.projects =
        app.projects ++ [⟨app.nextProjectId, pyStrip n, pyStrip d, []⟩]) := by
  unfold create_project
  by_cases h1 : app.projects.length ≥ app.maxProjects
  · rw [if_pos h1]
    refine ⟨⟨fun hok => Bool.noConfusion hok, ?_⟩, fun hok => Bool.noConfusion hok⟩
    rintro ⟨h2, -⟩
    omega
  · rw [if_neg h1]
    by_cases h2 : is_blank n = true
    · rw [if_pos h2]
      refine ⟨⟨fun hok => Bool.noConfusion hok, ?_⟩, fun hok => Bool.noConfusion hok⟩
      rintro ⟨-, h3, -⟩
      rw [h2] at h3
      exact Bool.noConfusion h3
    · rw [if_neg h2]
      by_cases h3 : ¬(NAME_MIN_LEN ≤ pyLen n ∧ pyLen n ≤ NAME_MAX_LEN)
      · rw [if_pos h3]
        refine ⟨⟨fun hok => Bool.noConfusion hok, ?_⟩, fun hok => Bool.noConfusion hok⟩
        rintro ⟨-, -, h4, h5, -⟩
        exact absurd ⟨h4, h5⟩ h3
      · rw [if_neg h3]
        by_cases h4 : (app.projects.any fun p => pyLower (pyStrip p.name) == pyLower (pyStrip n)) = true
        · rw [if_pos h4]
          refine ⟨⟨fun hok => Bool.noConfusion hok, ?_⟩, fun hok => Bool.noConfusion hok⟩
          rintro ⟨-, -, -, -, h5⟩
          obtain ⟨p, hp, hpe⟩ := List.any_eq_true.mp h4
          exact absurd (by simpa using hpe) (h5 p hp)
        · rw [if_neg h4]
          constructor
          · constructor
            · intro _
              obtain ⟨h3a, h3b⟩ := not_not.mp h3
              refine ⟨by omega, by simpa using h2, h3a, h3b, ?_⟩
              intro p hp he
              apply h4
              exact List.any_eq_true.mpr ⟨p, hp, by simpa using he⟩
            · intro _
              exact rfl
          · intro _
            exact rfl

theorem c3_create_project_exact_witness :
    (create_project (initApp 10 100) "A" " d ").1.isOk = true ∧
    (create_project (initApp 10 100) "A" " d ").2.projects =
      (initApp 10 100).projects ++
        [⟨(initApp 10 100).nextProjectId, pyStrip "A", pyStrip " d ", []⟩] :=
  ⟨by decide, (c3_create_project_exact (initApp 10 100) "A" " d ").2 (by decide)⟩

/-- C4 counterexample: `edit_task` with a whitespace-only title on the
reachable state `appA` SUCCEEDS (the claim says it must fail) and stores
the empty trimmed title. -/
theorem c4_counterexample :
    Reachable appA ∧
    (edit_task appA 1 1 "   " "d2" (some "todo")).1 = Except.ok ⟨1, "", "d2", "todo"⟩ ∧
    find_project (edit_task appA 1 1 "   " "d2" (some "todo")).2 1 =
      some ⟨1, "A", "", [⟨1, "", "d2", "todo"⟩]⟩ :=
  ⟨⟨10, 100, appA_ops, rfl⟩, by decide, by decide⟩

/-- C4 amended: `edit_project` with a blank new name fails and leaves the
state unchanged, but `edit_task` performs NO blank-title check: with a
blank new title and a valid status it succeeds and stores the empty trimmed
title. -/
theorem c4_blank_validation (app : ToDoApp) (pid tid : Nat) :
    (∀ nn nd project, find_project app pid = some project → is_blank nn = true →
      (edit_project app pid nn nd).1.isOk = false ∧ (edit_project app pid nn nd).2 = app) ∧
    (∀ nt nd s project task, find_project app pid = some project →
      find_task project tid = some task → is_blank nt = true → valid_status s = true →
      (edit_task app pid tid nt nd (some s)).1 = Except.ok ⟨task.id, "", pyStrip nd, s⟩) := by
  constructor
  · intro nn nd project hf hb
    have heq : edit_project app pid nn nd = (Except.error "Project name cannot be empty.", app) := by
      simp [edit_project, hf, hb]
    rw [heq]
    exact ⟨rfl, rfl⟩
  · intro nt nd s project task hf hft hb hs
    rw [edit_task_valid_eq nt nd hf hft hs]
    rw [is_blank_strip hb]

theorem c4_blank_validation_witness :
    ((edit_project appA 1 "   " "x").1.isOk = false ∧ (edit_project appA 1 "   " "x").2 = appA) ∧
    (edit_task appA 1 1 "  " "d2" (some "todo")).1 = Except.ok ⟨1, "", pyStrip "d2", "todo"⟩ :=
  ⟨(c4_blank_validation appA 1 1).1 "   " "x" ⟨1, "A", "", [⟨1, "t", "d", "todo"⟩]⟩
      (by decide) (by decide),
    (c4_blank_validation appA 1 1).2 "  " "d2" "todo"
      ⟨1, "A", "", [⟨1, "t", "d", "todo"⟩]⟩ ⟨1, "t", "d", "todo"⟩
      (by decide) (by decide) (by decide) (by decide)⟩

/-- C5 counterexample: on the reachable state `appA` (project 1, task 1
both exist, title non-blank), `edit_task` called with `new_status = None`
FAILS with a ValidationError — the claim says it should succeed leaving the
status unchanged. -/
theorem c5_counterexample :
    Reachable appA ∧
    find_project appA 1 = some ⟨1, "A", "", [⟨1, "t", "d", "todo"⟩]⟩ ∧
    (edit_task appA 1 1 "t2" "d2" none).1.isOk = false :=
  ⟨⟨10, 100, appA_ops, rfl⟩, by decide, by decide⟩

/-- C5 amended: `new_status` is a required parameter with no default;
passing `None` is rejected by the status check (after the title and
description have already been overwritten), and on success — which requires
a valid status string — the stored status is always overwritten. -/
theorem c5_edit_task_status_required (app : ToDoApp) (pid tid : Nat)
    (nt nd : String) (project : Project) (task : Task)
    (hf : find_project app pid = some project) (hft : find_task project tid = some task) :
    ((edit_task app pid tid nt nd none).1.isOk = false ∧
      ∃ q, find_project (edit_task app pid tid nt nd none).2 pid = some q ∧
        find_task q tid = some ⟨task.id, pyStrip nt, pyStrip nd, task.status⟩) ∧
    (∀ s, valid_status s = true →
      (edit_task app pid tid nt nd (some s)).1 =
        Except.ok ⟨task.id, pyStrip nt, pyStrip nd, s⟩) := by
  have heq := edit_task_none_eq nt nd hf hft
  refine ⟨⟨by rw [heq]; exact rfl, ?_⟩, ?_⟩
  · refine ⟨{ project with tasks := replace_task project.tasks tid ({ task with title := pyStrip nt, description := pyStrip nd }) }, ?_, ?_⟩
    · rw [heq]
      exact find_project_after_replace hf
        ({ project with tasks := replace_task project.tasks tid ({ task with title := pyStrip nt, description := pyStrip nd }) })
        (by have h5 := find_project_id hf; exact h5)
    · exact find_task_after_replace hft ({ task with title := pyStrip nt, description := pyStrip nd })
        (by have h5 := find_task_id hft; exact h5)
  · intro s hs
    rw [edit_task_valid_eq nt nd hf hft hs]

theorem c5_edit_task_status_required_witness :
    ((edit_task appA 1 1 "t2" "d2" none).1.isOk = false) ∧
    (edit_task appA 1 1 "t2" "d2" (some "doing")).1 =
      Except.ok ⟨1, pyStrip "t2", pyStrip "d2", "doing"⟩ :=
  ⟨(c5_edit_task_status_required appA 1 1 "t2" "d2"
      ⟨1, "A", "", [⟨1, "t", "d", "todo"⟩]⟩ ⟨1, "t", "d", "todo"⟩
      (by decide) (by decide)).1.1,
    (c5_edit_task_status_required appA 1 1 "t2" "d2"
      ⟨1, "A", "", [⟨1, "t", "d", "todo"⟩]⟩ ⟨1, "t", "d", "todo"⟩
      (by decide) (by decide)).2 "doing" (by decide)⟩

end Todo
